import Mathlib

/-!
Shallow embedding of the FuzzDelSol-lite fuzzer (Rust sources:
`types.rs`, `vm_rbpf.rs`, `oracles.rs`, `emulator.rs`, `txgen.rs`,
`evaluator.rs`, `fuzzer_libafl.rs`) and verification of the frozen
claims about it.

Modelling conventions:
- A Solana `Pubkey` is 32 bytes compared lexicographically; we model it
  as the big-endian natural number of those bytes, so `Nat` order is key
  order and the first byte is the most significant one.
- `u64`/`u32`/`u8` values are `Nat` with explicit `% 2 ^ w` at the points
  where the Rust code wraps, and saturating operations written out.
- `BTreeMap<Pubkey, Account>` is a function `Pubkey → Option Account`
  (only point lookups and point inserts are performed by the code).
- `Pubkey::new_unique()` (a global atomic counter in solana_sdk) is made
  explicit: every function that calls it takes a supply `fr : Nat → Pubkey`
  and a counter, and draws `fr c`, `fr (c+1)`, … in call order.
- Fallible Rust code (slice indexing / `%` by zero panics, `io::Result`)
  returns `Option` / `Except`.
-/

namespace FuzzDelSol

/-- A pubkey is the big-endian value of its 32 bytes. -/
abbrev Pubkey := Nat

def U64MOD : Nat := 2 ^ 64

def U64MAX : Nat := 2 ^ 64 - 1

def U32MAX : Nat := 2 ^ 32 - 1

/-- `k.to_bytes()[0]`: the most significant byte of the 32-byte key. -/
def firstByte (k : Pubkey) : Nat := k / 2 ^ 248 % 256

/-- `system_program::id()` is the all-zero pubkey (base58 "111…1"). -/
def system_program_id : Pubkey := 0

/-- Bit `i` of `b`, as in the Rust tests `(b & (1 << i)) != 0`. -/
def bit (b : Nat) (i : Nat) : Bool := b / 2 ^ i % 2 == 1

/-- Saturating `u32` addition (`saturating_add`). -/
def satAdd32 (a b : Nat) : Nat := min (a + b) U32MAX

/-- Saturating `u64` addition (`saturating_add`). -/
def satAdd64 (a b : Nat) : Nat := min (a + b) U64MAX

/-- `types.rs` `Account` (the unused `pubkey` field was removed upstream). -/
structure Account where
  owner : Pubkey
  lamports : Nat
  data : List Nat
  is_signer : Bool
  is_writable : Bool
  is_executable : Bool
deriving DecidableEq

/-- The `BTreeMap<Pubkey, Account>` of a snapshot, as a point-lookup map. -/
abbrev AccountMap := Pubkey → Option Account

/-- Point insert, `accounts.insert(k, a)`. -/
def mapSet (m : AccountMap) (k : Pubkey) (a : Account) : AccountMap :=
  fun q => if q = k then some a else m q

/-- `types.rs` `LedgerSnapshot`. -/
structure LedgerSnapshot where
  program_id : Pubkey
  accounts : AccountMap

/-- `types.rs` `InstrAccountMeta`. -/
structure InstrAccountMeta where
  pubkey : Pubkey
  is_signer : Bool
  is_writable : Bool
deriving DecidableEq

/-- `types.rs` `Instruction`. -/
structure Instruction where
  program_id : Pubkey
  accounts : List InstrAccountMeta
  data : List Nat
deriving DecidableEq

/-- `types.rs` `Transaction` (`signers` is a `BTreeSet`, used only through
membership, modelled as a list). -/
structure Transaction where
  signers : List Pubkey
  all_accounts_sorted : List Pubkey
  instruction : Instruction
deriving DecidableEq

/-- `types.rs` `CoverageMap { size, hits: Vec<u32> }`; the fixed-length
vector of buckets is modelled as the function `hits` on indices `< size`. -/
structure CoverageMap where
  size : Nat
  hits : Nat → Nat

/-- `CoverageMap::new(size)`. -/
def CoverageMap.new (size : Nat) : CoverageMap :=
  { size := size, hits := fun _ => 0 }

/-- `CoverageMap::hit_edge`: `idx = (src.wrapping_add(dst)) as usize % size`,
then `hits[idx] = hits[idx].saturating_add(1)`. -/
def CoverageMap.hit_edge (cm : CoverageMap) (src dst : Nat) : CoverageMap :=
  let idx := (src + dst) % U64MOD % cm.size
  { cm with hits := fun j => if j = idx then satAdd32 (cm.hits idx) 1 else cm.hits j }

/-- The bucket vector of a coverage map, in index order (the contents of
the Rust `hits: Vec<u32>`). -/
def bucketVector (cm : CoverageMap) : List Nat :=
  (List.range cm.size).map cm.hits

/-- One step of the `hash16` fold: `h ^= v as u64; h = h.wrapping_mul(1099511628211)`. -/
def fnvStep (h v : Nat) : Nat := Nat.xor h v * 1099511628211 % 2 ^ 64

/-- `CoverageMap::hash16()`: FNV-1a-style fold over all buckets. -/
def CoverageMap.hash16 (cm : CoverageMap) : Nat :=
  (bucketVector cm).foldl fnvStep 1469598103934665603

/-- Modelled from the spec: "`hash16()` is a FNV-1a-style 64-bit fold over
all buckets (seed `0x14650FB0739D0383`, multiplier `0x100000001B3`)" —
written as plain recursion, `h = (h XOR v) * 0x100000001B3 mod 2^64` for
each bucket value `v` in index order. Compared with the implementation
`CoverageMap.hash16` in claim C5. -/
def specFnvFold : Nat → List Nat → Nat
  | h, [] => h
  | h, v :: rest => specFnvFold (Nat.xor h v * 1099511628211 % 2 ^ 64) rest

/-- `types.rs` `TaintEngine` (the register/heap fields are reserved and
never read by the TraceVM). -/
structure TaintEngine where
  reg_taint : List Bool
  heap_taint : Bool
  input_taint : Bool
  data_acc_taint : Bool
deriving DecidableEq

/-- `TaintEngine::default()`. -/
def TaintEngine.init : TaintEngine :=
  { reg_taint := List.replicate 16 false
    heap_taint := false
    input_taint := false
    data_acc_taint := false }

/-- `types.rs` `OracleSignals`. -/
structure OracleSignals where
  msc : Bool
  moc : Bool
  acpi : Bool
  mkc : Bool
  ib : Bool
  lamports_theft : Bool
deriving DecidableEq

/-- The all-false signal record the driver starts every iteration with. -/
def OracleSignals.allFalse : OracleSignals :=
  { msc := false, moc := false, acpi := false, mkc := false
    ib := false, lamports_theft := false }

/-- `OracleSignals::any()`. -/
def OracleSignals.any (s : OracleSignals) : Bool :=
  s.msc || s.moc || s.acpi || s.mkc || s.ib || s.lamports_theft

/-- `OracleSignals::class()`: highest-priority label. -/
def OracleSignals.vulnClass (s : OracleSignals) : String :=
  if s.lamports_theft then "LAMPORTS_THEFT"
  else if s.moc then "MOC"
  else if s.msc then "MSC"
  else if s.acpi then "ACPI"
  else if s.mkc then "MKC"
  else if s.ib then "IB"
  else "NONE"

/-- `types.rs` `ExtractedSemantics`. -/
structure ExtractedSemantics where
  new_pda_seed_hint : Option (List Nat)
  new_account_layout_hint : Option (List Nat)
deriving DecidableEq

/-- `ExtractedSemantics::default()`. -/
def ExtractedSemantics.init : ExtractedSemantics :=
  { new_pda_seed_hint := none, new_account_layout_hint := none }

/-- `oracles.rs` `VmEvent`. -/
inductive VmEvent where
  | Cmp (lhs_tainted rhs_tainted used_for_auth : Bool)
  | ReadAccountData (acct : Pubkey) (owner : Pubkey)
  | WriteLamports (acct : Pubkey) (delta : Int)
  | WriteData (acct : Pubkey) (nbytes : Nat)
  | Cpi (invoked_program : Pubkey) (provided : List Pubkey)
  | KeyAccess (required_key : Pubkey) (provided_keys : List Pubkey) (used_for_auth : Bool)
  | IntegerOp (tainted overflowed : Bool)
deriving DecidableEq

/-- `vm_rbpf.rs` `pick_acct`: `all_accounts_sorted[(b as usize) % len]`,
or `program_id` when the list is empty. -/
def pick_acct (program_id : Pubkey) (b : Nat) (tx : Transaction) : Pubkey :=
  if tx.all_accounts_sorted.isEmpty then program_id
  else tx.all_accounts_sorted.getD (b % tx.all_accounts_sorted.length) program_id

/-- The predicate of `pick_benign_owned_by_program`'s scan:
snapshot owner equals `program_id` and the account is not executable. -/
def ownedBenign (program_id : Pubkey) (snap : AccountMap) (k : Pubkey) : Bool :=
  match snap k with
  | some a => a.owner == program_id && !a.is_executable
  | none => false

/-- `vm_rbpf.rs` `pick_benign_owned_by_program`: first tx account owned by
the program and not executable, falling back to `pick_acct`. -/
def pick_benign_owned_by_program (program_id : Pubkey) (b : Nat) (tx : Transaction)
    (snap : AccountMap) : Pubkey :=
  match tx.all_accounts_sorted.find? (ownedBenign program_id snap) with
  | some k => k
  | none => pick_acct program_id b tx

/-- The mutable state of one `TraceVm::run` invocation: working snapshot,
coverage map, taint state, event vector, the `pending_big_attacker_gain`
latch, the pseudo-PC, and the `new_unique` counter. -/
structure VmState where
  coverage : CoverageMap
  taint : TaintEngine
  events : List VmEvent
  snap : AccountMap
  pending_big_attacker_gain : Bool
  pc : Nat
  ctr : Nat

/-- Apply a signed lamport delta to the working snapshot with saturating
`u64` arithmetic; a missing account is a no-op (`if let Some(a) = …`). -/
def applyLamports (m : AccountMap) (acct : Pubkey) (delta : Int) : AccountMap :=
  match m acct with
  | some a =>
      let lam := if delta < 0 then a.lamports - delta.natAbs
                 else satAdd64 a.lamports delta.toNat
      mapSet m acct { a with lamports := lam }
  | none => m

/-- The WRITE DATA opcode body of `TraceVm::run`: XOR `b` into the first
`min(n, len)` data bytes of `acct` and emit `WriteData{acct, n}`; a
missing account is a silent no-op and emits nothing. -/
def vmWriteData (st1 : VmState) (acct : Pubkey) (b : Nat) : VmState :=
  match st1.snap acct with
  | some a =>
      let n := max (b % 32) 1
      let newData := a.data.enum.map (fun p => if p.1 < n then Nat.xor p.2 b else p.2)
      { st1 with snap := mapSet st1.snap acct { a with data := newData },
                 events := st1.events ++ [VmEvent.WriteData acct n] }
  | none => st1

/-- One iteration of the `for (i, &b) in data.iter().enumerate()` loop of
`TraceVm::run`: coverage edge, then dispatch on `b >> 5`. -/
def vmStep (program_id : Pubkey) (tx : Transaction) (fr : Nat → Pubkey)
    (st : VmState) (i : Nat) (b0 : Nat) : VmState :=
  let b := b0 % 256
  let dst := (st.pc + b * 7 + i) % U64MOD
  let st1 : VmState := { st with coverage := st.coverage.hit_edge st.pc dst, pc := dst }
  if b / 32 = 0 then
    -- 0) AUTH CMP
    { st1 with events := st1.events ++
        [VmEvent.Cmp st1.taint.input_taint (bit b 1) (bit b 0)] }
  else if b / 32 = 1 then
    -- 1) READ ACCOUNT DATA
    let acct := if b % 8 = 7 then pick_acct program_id b tx
                else pick_benign_owned_by_program program_id b tx st1.snap
    let owner := match st1.snap acct with
      | some a => a.owner
      | none => program_id
    let taint' := if owner ≠ program_id
                  then { st1.taint with data_acc_taint := true }
                  else st1.taint
    { st1 with taint := taint',
               events := st1.events ++ [VmEvent.ReadAccountData acct owner] }
  else if b / 32 = 2 then
    -- 2) WRITE LAMPORTS; res = (acct, delta, pending')
    let mode := b % 4
    let res : Pubkey × Int × Bool :=
      if mode = 0 then
        let acct := match tx.instruction.accounts.find? (fun m => !m.is_signer) with
          | some m => m.pubkey
          | none => pick_acct program_id b tx
        (acct, -((Int.ofNat (b % 32) + 1) * 10000), st1.pending_big_attacker_gain)
      else if mode = 1 then
        let acct := match tx.instruction.accounts.find? (fun m => m.is_signer) with
          | some m => m.pubkey
          | none => pick_acct program_id b tx
        if st1.pending_big_attacker_gain then (acct, 80000000, false)
        else (acct, (Int.ofNat (b % 32) + 1) * 10000, st1.pending_big_attacker_gain)
      else
        let acct := pick_acct program_id b tx
        let mag : Int := (Int.ofNat (b % 32) + 1) * 5000
        (acct, if bit b 0 then -mag else mag, st1.pending_big_attacker_gain)
    { st1 with snap := applyLamports st1.snap res.1 res.2.1,
               pending_big_attacker_gain := res.2.2,
               events := st1.events ++ [VmEvent.WriteLamports res.1 res.2.1] }
  else if b / 32 = 3 then
    -- 3) WRITE DATA (event only if the account exists)
    vmWriteData st1 (pick_acct program_id b tx) b
  else if b / 32 = 4 then
    -- 4) CPI; `Pubkey::new_unique()` draws from the supply when b is odd
    let iv : Pubkey × Nat := if bit b 0 then (fr st1.ctr, st1.ctr + 1) else (program_id, st1.ctr)
    let provided :=
      (match tx.instruction.accounts.head? with
       | some m => [m.pubkey]
       | none => []) ++
      (if bit b 1 then
        match tx.instruction.accounts.find? (fun m => m.is_signer) with
        | some s => [s.pubkey]
        | none => []
       else [])
    { st1 with ctr := iv.2, events := st1.events ++ [VmEvent.Cpi iv.1 provided] }
  else
    -- 5..7) IntegerOp + KeyAccess
    let overflowed := b % 16 == 15
    let tainted := st1.taint.input_taint
    let pending' := if tainted && overflowed then true else st1.pending_big_attacker_gain
    let required_key := pick_acct program_id b tx
    let used_for_auth := bit b 1
    let provided_keys := if bit b 2 then [required_key] else []
    { st1 with pending_big_attacker_gain := pending',
               events := st1.events ++
                 [VmEvent.IntegerOp tainted overflowed,
                  VmEvent.KeyAccess required_key provided_keys used_for_auth] }

/-- The byte loop of `TraceVm::run`, folded over the enumerated data. -/
def vmFold (program_id : Pubkey) (tx : Transaction) (fr : Nat → Pubkey)
    (l : List (Nat × Nat)) (st : VmState) : VmState :=
  l.foldl (fun s p => vmStep program_id tx fr s p.1 p.2) st

/-- `vm_rbpf.rs` `VmRunOutput` (the textual `trace_summary` is omitted:
it is presentation-only and read by no oracle or claim). -/
structure VmRunOutput where
  coverage : CoverageMap
  taint : TaintEngine
  events : List VmEvent
  post_snapshot : LedgerSnapshot
  ctr : Nat

/-- `TraceVm::run(program_id, snap, tx)`; `fr`/`c` make the
`Pubkey::new_unique()` counter explicit. -/
def TraceVm.run (program_id : Pubkey) (snap : LedgerSnapshot) (tx : Transaction)
    (fr : Nat → Pubkey) (c : Nat) : VmRunOutput :=
  let t0 : TaintEngine := { TaintEngine.init with input_taint := !tx.instruction.data.isEmpty }
  let st0 : VmState :=
    { coverage := CoverageMap.new (64 * 1024), taint := t0, events := []
      snap := snap.accounts, pending_big_attacker_gain := false, pc := 0x1000, ctr := c }
  let stf := vmFold program_id tx fr tx.instruction.data.enum st0
  { coverage := stf.coverage, taint := stf.taint, events := stf.events
    post_snapshot := { program_id := snap.program_id, accounts := stf.snap }
    ctr := stf.ctr }

/-- `oracles.rs` `OracleContext`. -/
structure OracleContext where
  program_id : Pubkey
  attacker : Pubkey
  user : Pubkey
deriving DecidableEq

/-- `oracles.rs` `Oracles` (the three `BTreeSet<Pubkey>` fields are used
only through membership and are modelled as duplicate-free lists). -/
structure Oracles where
  ctx : OracleContext
  saw_auth_cmp : Bool
  saw_auth_cmp_with_taint : Bool
  auth_depends_on_malicious : Bool
  msc_candidates : List Pubkey
  moc_malicious_reads : List Pubkey
  modified_accounts : List Pubkey
  pre_user_lamports : Nat
  pre_attacker_lamports : Nat
  saw_tainted_overflow : Bool
deriving DecidableEq

/-- `BTreeSet::insert`. -/
def setInsert (l : List Pubkey) (k : Pubkey) : List Pubkey :=
  if l.contains k then l else k :: l

/-- `accounts.get(k).map(|a| a.lamports).unwrap_or(d)`. -/
def lamportsOf (m : AccountMap) (k : Pubkey) (d : Nat) : Nat :=
  match m k with
  | some a => a.lamports
  | none => d

/-- `Oracles::new(ctx, pre)`. -/
def Oracles.new (ctx : OracleContext) (pre : LedgerSnapshot) : Oracles :=
  { ctx := ctx
    saw_auth_cmp := false
    saw_auth_cmp_with_taint := false
    auth_depends_on_malicious := false
    msc_candidates := []
    moc_malicious_reads := []
    modified_accounts := []
    pre_user_lamports := lamportsOf pre.accounts ctx.user 0
    pre_attacker_lamports := lamportsOf pre.accounts ctx.attacker 0
    saw_tainted_overflow := false }

/-- `Oracles::process_event`; returns the updated oracle state and the
updated signals (`acpi`/`mkc` can be raised here). -/
def Oracles.process_event (o : Oracles) (tx : Transaction) (taint : TaintEngine)
    (_pre _post : LedgerSnapshot) (ev : VmEvent) (signals : OracleSignals) :
    Oracles × OracleSignals :=
  match ev with
  | VmEvent.Cmp lhs_tainted rhs_tainted used_for_auth =>
      if used_for_auth then
        let o1 := { o with saw_auth_cmp := true }
        let o2 := if lhs_tainted || rhs_tainted || taint.input_taint || taint.data_acc_taint
                  then { o1 with saw_auth_cmp_with_taint := true } else o1
        let o3 := if !o2.moc_malicious_reads.isEmpty &&
                     (lhs_tainted || rhs_tainted || taint.data_acc_taint)
                  then { o2 with auth_depends_on_malicious := true } else o2
        let cands := tx.instruction.accounts.foldl
          (fun s m => if m.is_writable && !m.is_signer then setInsert s m.pubkey else s)
          o3.msc_candidates
        let o4 := { o3 with msc_candidates := cands }
        (o4, signals)
      else (o, signals)
  | VmEvent.ReadAccountData acct owner =>
      if owner ≠ o.ctx.program_id
      then ({ o with moc_malicious_reads := setInsert o.moc_malicious_reads acct }, signals)
      else (o, signals)
  | VmEvent.WriteLamports acct _delta =>
      ({ o with modified_accounts := setInsert o.modified_accounts acct }, signals)
  | VmEvent.WriteData acct _nbytes =>
      ({ o with modified_accounts := setInsert o.modified_accounts acct }, signals)
  | VmEvent.Cpi invoked_program provided =>
      let allowed := invoked_program == o.ctx.program_id
      if !allowed && o.saw_auth_cmp_with_taint && provided.contains o.ctx.attacker
      then (o, { signals with acpi := true })
      else (o, signals)
  | VmEvent.KeyAccess required_key provided_keys used_for_auth =>
      if used_for_auth then
        let ok := provided_keys.contains required_key
        let required_is_signer := tx.signers.contains required_key
        if !ok && !required_is_signer then (o, { signals with mkc := true })
        else (o, signals)
      else (o, signals)
  | VmEvent.IntegerOp tainted overflowed =>
      if tainted && overflowed then ({ o with saw_tainted_overflow := true }, signals)
      else (o, signals)

/-- The driver's event loop: fold `process_event` over the VM's stream. -/
def Oracles.processAll (o : Oracles) (tx : Transaction) (taint : TaintEngine)
    (pre post : LedgerSnapshot) (events : List VmEvent) (signals : OracleSignals) :
    Oracles × OracleSignals :=
  events.foldl (fun p ev => Oracles.process_event p.1 tx taint pre post ev p.2) (o, signals)

/-- `Oracles::finalize(tx, pre, post, signals)`. -/
def Oracles.finalize (o : Oracles) (tx : Transaction) (pre post : LedgerSnapshot)
    (signals : OracleSignals) : OracleSignals :=
  -- MSC
  let s1 :=
    if o.saw_auth_cmp_with_taint &&
       o.modified_accounts.any (fun acct =>
         o.msc_candidates.contains acct &&
         (let pre_l := lamportsOf pre.accounts acct 0
          let post_l := lamportsOf post.accounts acct pre_l
          decide (post_l < pre_l)))
    then { signals with msc := true } else signals
  -- MOC
  let s2 :=
    if o.saw_auth_cmp && o.auth_depends_on_malicious &&
       o.modified_accounts.any (fun acct =>
         acct != o.ctx.attacker &&
         tx.instruction.accounts.any (fun m => m.pubkey == acct && m.is_writable))
    then { s1 with moc := true } else s1
  -- Lamports-theft
  let s3 :=
    if tx.signers.contains o.ctx.attacker then
      let pre_user := lamportsOf pre.accounts o.ctx.user o.pre_user_lamports
      let pre_att := lamportsOf pre.accounts o.ctx.attacker o.pre_attacker_lamports
      let post_user := lamportsOf post.accounts o.ctx.user pre_user
      let post_att := lamportsOf post.accounts o.ctx.attacker pre_att
      if post_user < pre_user ∧ post_att > pre_att
      then { s2 with lamports_theft := true } else s2
    else s2
  -- Integer Bugs
  if o.saw_tainted_overflow then
    let post_att := lamportsOf post.accounts o.ctx.attacker 0
    if post_att > satAdd64 o.pre_attacker_lamports 50000000
    then { s3 with ib := true } else s3
  else s3

/-- `types.rs` `VulnReport` (only the class label is observable by any
claim; the free-text snapshot dumps and payload hex are presentation). -/
structure VulnReport where
  vuln_class : String
deriving DecidableEq

/-- `types.rs` `ExecResult` (`trace_summary` omitted, presentation-only). -/
structure ExecResult where
  coverage : CoverageMap
  signals : OracleSignals
  semantics : ExtractedSemantics
  tx : Transaction
  pre_snapshot : LedgerSnapshot
  post_snapshot : LedgerSnapshot

/-- `evaluator.rs` `EvalOutcome`. -/
structure EvalOutcome where
  is_new_coverage : Bool
  is_objective : Bool
  report : Option VulnReport
  semantics : ExtractedSemantics

/-- `TransactionEvaluator::evaluate(exec, &mut best_cov_hash)`; the `&mut`
hash cell is passed in and returned. -/
def TransactionEvaluator.evaluate (exec : ExecResult) (best_cov_hash : Nat) :
    EvalOutcome × Nat :=
  let cov_hash := exec.coverage.hash16
  let is_new_coverage := cov_hash != best_cov_hash
  let best' := if is_new_coverage then cov_hash else best_cov_hash
  let is_objective := exec.signals.any
  let report := if is_objective then some { vuln_class := exec.signals.vulnClass } else none
  let seed_hint :=
    if is_new_coverage && !exec.tx.instruction.data.isEmpty
    then some (exec.tx.instruction.data.take 8) else none
  let layout_hint :=
    if is_objective && decide (exec.tx.instruction.data.length ≥ 8)
    then some (exec.tx.instruction.data.reverse.take 8) else none
  ({ is_new_coverage := is_new_coverage, is_objective := is_objective
     report := report
     semantics := { new_pda_seed_hint := seed_hint, new_account_layout_hint := layout_hint } },
   best')

/-- `emulator.rs` `BlockchainEmulator` (the run-long identities and the
persistent semantic-hint pair). -/
structure BlockchainEmulator where
  attacker : Pubkey
  user : Pubkey
  selectable_accounts : List Pubkey
  semantic_seed_hint : List Nat
  semantic_layout_hint : List Nat
deriving DecidableEq

/-- `BlockchainEmulator::update_semantics`. -/
def BlockchainEmulator.update_semantics (emu : BlockchainEmulator)
    (sem : ExtractedSemantics) : BlockchainEmulator :=
  let e1 := match sem.new_pda_seed_hint with
    | some x => { emu with semantic_seed_hint := x }
    | none => emu
  match sem.new_account_layout_hint with
  | some x => { e1 with semantic_layout_hint := x }
  | none => e1

/-- `emulator.rs` classification: `(k.to_bytes()[0] & 1) == 1`. -/
def attackerControlled (k : Pubkey) : Bool := firstByte k % 2 == 1

/-- The 64-byte data buffer of a pool account after applying the two
semantic hints. `data[i] ^= seed_hint[i]` for `i < min(|hint|, 64)`, then
`data[(63 - i) % 64] ^= layout_hint[i]`; since `i < 64` in both loops the
`% 64` is the identity, so position `j` receives `layout_hint[63 - j]`
(XOR with 0 where a hint index is out of range). -/
def hintData (seed_hint layout_hint : List Nat) : List Nat :=
  let data0 := List.replicate 64 0
  let d1 := if seed_hint.isEmpty then data0
            else data0.enum.map (fun p => Nat.xor p.2 (seed_hint.getD p.1 0))
  if layout_hint.isEmpty then d1
  else d1.enum.map (fun p => Nat.xor p.2 (layout_hint.getD (63 - p.1) 0))

/-- The account inserted for a selectable pool key, given its owner. -/
def poolAccount (emu : BlockchainEmulator) (owner : Pubkey) : Account :=
  { owner := owner, lamports := 100000000
    data := hintData emu.semantic_seed_hint emu.semantic_layout_hint
    is_signer := false, is_writable := true, is_executable := false }

/-- The body of `build_snapshot`'s pool loop for one selectable key:
skip the identities and the program key, otherwise insert the account,
drawing a fresh (`new_unique`) owner when the key is attacker-controlled. -/
def poolStep (emu : BlockchainEmulator) (program_id : Pubkey) (fr : Nat → Pubkey)
    (p : AccountMap × Nat) (k : Pubkey) : AccountMap × Nat :=
  if k == emu.attacker || k == emu.user || k == program_id then p
  else
    let oc : Pubkey × Nat :=
      if attackerControlled k then (fr p.2, p.2 + 1) else (program_id, p.2)
    (mapSet p.1 k (poolAccount emu oc.1), oc.2)

/-- `BlockchainEmulator::build_snapshot(program_id, program_elf_bytes)`;
returns the snapshot together with the advanced `new_unique` counter. -/
def BlockchainEmulator.build_snapshot (emu : BlockchainEmulator) (program_id : Pubkey)
    (program_elf_bytes : List Nat) (fr : Nat → Pubkey) (c : Nat) :
    LedgerSnapshot × Nat :=
  let m0 : AccountMap := fun _ => none
  let m1 := mapSet m0 emu.attacker
    { owner := system_program_id, lamports := 1000000000, data := []
      is_signer := true, is_writable := true, is_executable := false }
  let m2 := mapSet m1 emu.user
    { owner := system_program_id, lamports := 1000000000, data := []
      is_signer := true, is_writable := true, is_executable := false }
  let m3 := mapSet m2 program_id
    { owner := system_program_id, lamports := 1, data := program_elf_bytes
      is_signer := false, is_writable := false, is_executable := true }
  let mf := emu.selectable_accounts.foldl (poolStep emu program_id fr) (m3, c)
  ({ program_id := program_id, accounts := mf.1 }, mf.2)

/-- The selectable pool minus the attacker and user identities (the keys
`txgen.rs` partitions into benign/malicious pools). -/
def nonIdentitySelectables (emu : BlockchainEmulator) : List Pubkey :=
  emu.selectable_accounts.filter (fun k => !(k == emu.attacker) && !(k == emu.user))

/-- `txgen.rs` pool partitioning with its empty-pool fallbacks; returns
`(benign_pool, malicious_pool)`. -/
def TxGenerator.pools (emu : BlockchainEmulator) : List Pubkey × List Pubkey :=
  let base := nonIdentitySelectables emu
  let benign0 := base.filter (fun k => !attackerControlled k)
  let malicious0 := base.filter (fun k => attackerControlled k)
  let benign_pool := if benign0.isEmpty then base else benign0
  let malicious_pool := if malicious0.isEmpty then benign_pool else malicious0
  (benign_pool, malicious_pool)

/-- Rust `Vec::dedup`: collapse runs of consecutive equal elements. -/
def dedupConsec : List Nat → List Nat
  | [] => []
  | [a] => [a]
  | a :: b :: rest =>
      if a = b then dedupConsec (b :: rest) else a :: dedupConsec (b :: rest)

/-- The total part of `TxGenerator::from_bytes` (everything after the
pool-emptiness panic has been ruled out). -/
def TxGenerator.buildTx (bytes : List Nat) (emu : BlockchainEmulator)
    (program_id : Pubkey) : Transaction :=
  let n_raw := bytes.getD 0 3 % 256
  let n_accounts := max (n_raw % 8) 1
  let signer_mask := bytes.getD 1 1 % 256
  let mode := bytes.getD 2 0x22 % 256
  let mal_mod := if mode / 64 % 4 = 0 then 8 else if mode / 64 % 4 = 1 then 4 else 3
  let writable_mod := if bit mode 5 then 3 else 4
  let pools := TxGenerator.pools emu
  let chosen0 := (List.range n_accounts).map (fun j =>
    let b := bytes.getD (3 + j) (j * 17 % 256) % 256
    let pool := if b % mal_mod = 0 then pools.2 else pools.1
    pool.getD (b % pool.length) program_id)
  let chosen1 := chosen0 ++ [emu.user] ++
    (if bit signer_mask 0 || bit mode 4 then [emu.attacker] else [])
  let all_accounts := dedupConsec (List.insertionSort (· ≤ ·) chosen1)
  let signers :=
    (if bit signer_mask 0 then setInsert [] emu.attacker else []) |>
    (fun s => if bit signer_mask 1 then setInsert s emu.user else s)
  let metas := all_accounts.enum.map (fun p =>
    let w0 := (p.1 + mode) % writable_mod == 0
    ({ pubkey := p.2, is_signer := signers.contains p.2
       is_writable := w0 || p.2 == emu.attacker || p.2 == emu.user } : InstrAccountMeta))
  let data := bytes.drop (3 + n_accounts)
  { signers := signers
    all_accounts_sorted := all_accounts
    instruction := { program_id := program_id, accounts := metas, data := data } }

/-- `TxGenerator::from_bytes(bytes, emu, program_id)`. The Rust code
panics (index/`%` by zero) exactly when there are no selectable keys
besides the identities: then both pools are empty after the fallbacks and
the account-selection loop (which always runs, `n_accounts ≥ 1`) divides
by the empty pool's length. That panic is modelled as `none`. -/
def TxGenerator.from_bytes (bytes : List Nat) (emu : BlockchainEmulator)
    (program_id : Pubkey) : Option Transaction :=
  if (nonIdentitySelectables emu).isEmpty then none
  else some (TxGenerator.buildTx bytes emu program_id)

/-- `fuzzer_libafl.rs` `mutate_bytes(seed, iter)`. -/
def mutate_bytes (seed : List Nat) (iter : Nat) : List Nat :=
  let out := if seed.isEmpty then [2, 3, 0, 1, 2, 3, 4, 5] else seed
  let n := iter % 8 + 1
  let out := (List.range n).foldl (fun o k =>
    let i := (iter + k * 13) % o.length
    o.enum.map (fun p => if p.1 = i then Nat.xor p.2 ((iter % 256 * 31 + k) % 256) else p.2)) out
  if iter % 7 == 0 && decide (out.length < 256)
  then out ++ [Nat.xor (iter % 256) 0xAA] else out

/-- The fixed seed of `run_fuzzdelsol`. -/
def theSeed : List Nat := [2, 3, 0, 1, 2, 3, 0x10, 0x22, 0x80, 0xFF, 0x7F, 0x01]

/-- The per-run inputs of the fuzz loop: the target program id, the ELF
bytes read from disk, and the `Pubkey::new_unique()` supply. -/
structure FuzzConfig where
  program_id : Pubkey
  elf_bytes : List Nat
  fresh : Nat → Pubkey

/-- The state carried across iterations of `run_fuzzdelsol`'s loop:
the emulator (whose hint buffers mutate), `best_cov_hash`, the
`new_unique` counter, the number of filesystem writes issued so far, and
the `executions` counter. -/
structure LoopState where
  emu : BlockchainEmulator
  best_cov_hash : Nat
  ctr : Nat
  wctr : Nat
  executions : Nat

/-- Everything one iteration of the fuzz loop computes before touching the
filesystem. -/
structure IterOut where
  tx : Transaction
  pre : LedgerSnapshot
  events : List VmEvent
  post : LedgerSnapshot
  coverage : CoverageMap
  signals : OracleSignals
  outcome : EvalOutcome
  newBest : Nat
  newCtr : Nat

/-- One iteration of `run_fuzzdelsol`'s loop (iteration index `i`), up to
but excluding artifact persistence: build the pre-snapshot, mutate the
seed, generate the transaction, run the TraceVM, fold the oracles,
finalize, and evaluate. `none` models the `from_bytes` panic. -/
def runOneIteration (cfg : FuzzConfig) (i : Nat) (st : LoopState) : Option IterOut :=
  let bs := st.emu.build_snapshot cfg.program_id cfg.elf_bytes cfg.fresh st.ctr
  let input := mutate_bytes theSeed i
  match TxGenerator.from_bytes input st.emu cfg.program_id with
  | none => none
  | some tx =>
      let vm := TraceVm.run cfg.program_id bs.1 tx cfg.fresh bs.2
      let ctx : OracleContext :=
        { program_id := cfg.program_id, attacker := st.emu.attacker, user := st.emu.user }
      let folded := (Oracles.new ctx bs.1).processAll tx vm.taint bs.1 vm.post_snapshot
        vm.events OracleSignals.allFalse
      let signals := folded.1.finalize tx bs.1 vm.post_snapshot folded.2
      let exec : ExecResult :=
        { coverage := vm.coverage, signals := signals, semantics := ExtractedSemantics.init
          tx := tx, pre_snapshot := bs.1, post_snapshot := vm.post_snapshot }
      let ev := TransactionEvaluator.evaluate exec st.best_cov_hash
      some { tx := tx, pre := bs.1, events := vm.events, post := vm.post_snapshot
             coverage := vm.coverage, signals := signals, outcome := ev.1
             newBest := ev.2, newCtr := vm.ctr }

/-- `iterObjective cfg i st` is the `out.is_objective` flag of iteration
`i` (false if the iteration panics). -/
def iterObjective (cfg : FuzzConfig) (i : Nat) (st : LoopState) : Bool :=
  match runOneIteration cfg i st with
  | some r => r.outcome.is_objective
  | none => false

/-- The fuzz loop of `run_fuzzdelsol`, recursing on the remaining
iteration count. `fsw n` tells whether the `n`-th filesystem write call of
the run succeeds; each objective issues two write calls (payload artifact,
then report), each followed by `?`, so a failed write returns
`Except.error` carrying the number of completed iterations, exactly as the
`?` operator propagates `io::Result` out of the loop. `Except.ok` carries
the final `executions` count. `none` models a generator panic. -/
def fuzzLoop (cfg : FuzzConfig) (fsw : Nat → Bool) :
    Nat → Nat → LoopState → Option (Except Nat Nat)
  | _, 0, st => some (Except.ok st.executions)
  | i, fuel + 1, st =>
      match runOneIteration cfg i st with
      | none => none
      | some r =>
          if r.outcome.is_objective then
            if fsw st.wctr then
              if fsw (st.wctr + 1) then
                fuzzLoop cfg fsw (i + 1) fuel
                  { emu := st.emu.update_semantics r.outcome.semantics
                    best_cov_hash := r.newBest, ctr := r.newCtr
                    wctr := st.wctr + 2, executions := st.executions + 1 }
              else some (Except.error st.executions)
            else some (Except.error st.executions)
          else
            fuzzLoop cfg fsw (i + 1) fuel
              { emu := st.emu.update_semantics r.outcome.semantics
                best_cov_hash := r.newBest, ctr := r.newCtr
                wctr := st.wctr, executions := st.executions + 1 }

/-- `run_fuzzdelsol(iters, elf_path)` given the process-level inputs. -/
def run_fuzzdelsol (cfg : FuzzConfig) (fsw : Nat → Bool) (iters : Nat)
    (emu0 : BlockchainEmulator) : Option (Except Nat Nat) :=
  fuzzLoop cfg fsw 0 iters
    { emu := emu0, best_cov_hash := 0, ctr := 0, wctr := 0, executions := 0 }

/-! Concrete identities used by witnesses and counterexamples. Keys are
`m * 2 ^ 248`, i.e. 32-byte keys whose first (most significant) byte is
`m` and whose remaining bytes are zero, so the parity of `m` is the
owner-classification parity. -/

def AK : Pubkey := 2 * 2 ^ 248

def UK : Pubkey := 4 * 2 ^ 248

def E1 : Pubkey := 6 * 2 ^ 248

def E2 : Pubkey := 8 * 2 ^ 248

def O1 : Pubkey := 9 * 2 ^ 248

def PK : Pubkey := 12 * 2 ^ 248

/-- A concrete emulator: attacker `AK`, user `UK`, and a pool holding two
even (program-owned) keys and one odd (foreign-owned) key. -/
def emuC : BlockchainEmulator :=
  { attacker := AK, user := UK, selectable_accounts := [AK, UK, E1, E2, O1]
    semantic_seed_hint := [], semantic_layout_hint := [] }

def st0C : LoopState :=
  { emu := emuC, best_cov_hash := 0, ctr := 0, wctr := 0, executions := 0 }

/-- Two run configurations identical in every pipeline input (program id,
ELF bytes) but drawing different `Pubkey::new_unique()` values, as two
real executions of the process would. -/
def cfg1C : FuzzConfig := { program_id := PK, elf_bytes := [], fresh := fun n => 1000 + n }

def cfg2C : FuzzConfig := { program_id := PK, elf_bytes := [], fresh := fun n => 2000 + n }

/-- A constant fresh-key supply, useful where a proof needs every drawn
key to differ from `PK`. -/
def frK : Nat → Pubkey := fun _ => 1001

/-- The pre-snapshot of the C3 scenario: built by the emulator for
program `PK` (so `E1` is a program-owned 64-byte data account and `AK` is
the attacker wallet holding 1_000_000_000 lamports). -/
def emu3 : BlockchainEmulator :=
  { attacker := AK, user := UK, selectable_accounts := [AK, UK, E1]
    semantic_seed_hint := [], semantic_layout_hint := [] }

def pre3 : LedgerSnapshot := (emu3.build_snapshot PK [] frK 0).1

/-- The C3 transaction: the attacker is the (only) signer meta, as the
claim's "attacker-style write to a signer account" scenario requires. -/
def tx3 (data : List Nat) : Transaction :=
  { signers := [AK]
    all_accounts_sorted := [AK, UK, E1]
    instruction :=
      { program_id := PK
        accounts := [{ pubkey := AK, is_signer := true, is_writable := true },
                     { pubkey := UK, is_signer := false, is_writable := true },
                     { pubkey := E1, is_signer := false, is_writable := true }]
        data := data } }

def ctx3 : OracleContext := { program_id := PK, attacker := AK, user := UK }

/-- The VM run of the C3 scenario on the given instruction data. -/
def scenarioVm (data : List Nat) : VmRunOutput :=
  TraceVm.run PK pre3 (tx3 data) frK 0

/-- The oracle signals of the C3 scenario: fold the VM's event stream from
all-false signals, then finalize against pre/post. -/
def scenarioSignals (data : List Nat) : OracleSignals :=
  let vm := scenarioVm data
  let folded := (Oracles.new ctx3 pre3).processAll (tx3 data) vm.taint pre3
    vm.post_snapshot vm.events OracleSignals.allFalse
  folded.1.finalize (tx3 data) pre3 vm.post_snapshot folded.2

/-- An emulator whose non-identity pool is a single even-parity key: the
generator's malicious-pool fallback kicks in. -/
def emuX : BlockchainEmulator :=
  { attacker := AK, user := UK, selectable_accounts := [AK, UK, E1]
    semantic_seed_hint := [], semantic_layout_hint := [] }

/-- A tiny emulator for generator witnesses. -/
def emuW : BlockchainEmulator :=
  { attacker := 1, user := 2, selectable_accounts := [1, 2, 5]
    semantic_seed_hint := [], semantic_layout_hint := [] }

/-- The transaction `from_bytes` produces from the empty input buffer and
`emuW` (all header fields defaulted). -/
def txW : Transaction :=
  { signers := [1]
    all_accounts_sorted := [1, 2, 5]
    instruction :=
      { program_id := 7
        accounts := [{ pubkey := 1, is_signer := true, is_writable := true },
                     { pubkey := 2, is_signer := false, is_writable := true },
                     { pubkey := 5, is_signer := false, is_writable := true }]
        data := [] } }

/-- The owner recorded in a snapshot for a key, if the account exists. -/
def snapshotOwner (s : LedgerSnapshot) (k : Pubkey) : Option Pubkey :=
  (s.accounts k).map (fun a => a.owner)

/-- A minimal pre-snapshot for oracle-only scenarios: the attacker wallet
with zero lamports. -/
def preW : LedgerSnapshot :=
  { program_id := PK
    accounts := mapSet (fun _ => none) AK
      { owner := system_program_id, lamports := 0, data := []
        is_signer := true, is_writable := true, is_executable := false } }

/-- A matching post-snapshot where the attacker gained 60 000 000
lamports. -/
def postW : LedgerSnapshot :=
  { program_id := PK
    accounts := mapSet (fun _ => none) AK
      { owner := system_program_id, lamports := 60000000, data := []
        is_signer := true, is_writable := true, is_executable := false } }

/-- The write target of an event: the account a `WriteLamports` or
`WriteData` event mutates, `none` for every other event kind. -/
def writeTarget : VmEvent → Option Pubkey
  | VmEvent.WriteLamports a _ => some a
  | VmEvent.WriteData a _ => some a
  | _ => none

/-! ## Helper lemmas -/

lemma mapSet_self (m : AccountMap) (k : Pubkey) (a : Account) : mapSet m k a k = some a := by
  simp [mapSet]

lemma mapSet_ne (m : AccountMap) (k : Pubkey) (a : Account) (q : Pubkey) (h : q ≠ k) :
    mapSet m k a q = m q := by
  simp [mapSet, h]

lemma foldl_fnvStep (l : List Nat) (h : Nat) : l.foldl fnvStep h = specFnvFold h l := by
  induction l generalizing h with
  | nil => rfl
  | cons v rest ih => simpa [specFnvFold, fnvStep] using ih (fnvStep h v)

lemma lamportsOf_idem (m : AccountMap) (k : Pubkey) (d : Nat) :
    lamportsOf m k (lamportsOf m k d) = lamportsOf m k d := by
  unfold lamportsOf
  cases m k <;> rfl

lemma finalize_new_allFalse (ctx : OracleContext) (snap : LedgerSnapshot) (tx : Transaction) :
    (Oracles.new ctx snap).finalize tx snap snap OracleSignals.allFalse =
      OracleSignals.allFalse := by
  unfold Oracles.finalize Oracles.new
  simp [lamportsOf_idem]

/-! ## Claim C5 -/

/-- C5: for every bucket vector, `hash16()` equals the fold that starts at
`h = 0x14650FB0739D0383` and, for each bucket value `v` in index order,
sets `h = (h XOR v) * 0x100000001B3 mod 2^64`; consequently equal bucket
vectors always produce equal fingerprints. -/
theorem C5_hash16_fnv (cm cm' : CoverageMap) :
    cm.hash16 = specFnvFold 1469598103934665603 (bucketVector cm) ∧
    (bucketVector cm = bucketVector cm' → cm.hash16 = cm'.hash16) := by
  refine ⟨foldl_fnvStep _ _, fun h => ?_⟩
  unfold CoverageMap.hash16
  rw [h]

/-- Witness for C5 at the concrete fresh 4-bucket map. -/
theorem C5_hash16_fnv_witness :
    (CoverageMap.new 4).hash16 =
      specFnvFold 1469598103934665603 (bucketVector (CoverageMap.new 4)) ∧
    (CoverageMap.new 4).hash16 = (CoverageMap.new 4).hash16 :=
  ⟨(C5_hash16_fnv (CoverageMap.new 4) (CoverageMap.new 4)).1,
   (C5_hash16_fnv (CoverageMap.new 4) (CoverageMap.new 4)).2 rfl⟩

/-! ## Claim C6 -/

/-- C6: for all u64 values `src` and `dst` and a coverage map of size
65 536, `hit_edge(src, dst)` increments exactly the bucket with index
`(src + dst) mod size` — `src + dst` being the exact, unwrapped sum, since
65 536 divides 2^64 — by one with saturating u32 addition, and leaves
every other bucket unchanged. -/
theorem C6_hit_edge (cm : CoverageMap) (src dst : Nat) (hsz : cm.size = 65536)
    (_hs : src < 2 ^ 64) (_hd : dst < 2 ^ 64) :
    (cm.hit_edge src dst).hits ((src + dst) % 65536) =
      satAdd32 (cm.hits ((src + dst) % 65536)) 1 ∧
    ∀ j, j ≠ (src + dst) % 65536 → (cm.hit_edge src dst).hits j = cm.hits j := by
  have hidx : (src + dst) % U64MOD % cm.size = (src + dst) % 65536 := by
    rw [hsz]
    exact Nat.mod_mod_of_dvd _ ⟨2 ^ 48, by norm_num [U64MOD]⟩
  unfold CoverageMap.hit_edge
  refine ⟨?_, fun j hj => ?_⟩
  · simp [hidx]
  · simp [hidx, hj]

/-- Witness for C6 at a concrete map, edge and untouched bucket. -/
theorem C6_hit_edge_witness :
    ((CoverageMap.new 65536).hit_edge 3 5).hits 8 =
      satAdd32 ((CoverageMap.new 65536).hits 8) 1 ∧
    ((CoverageMap.new 65536).hit_edge 3 5).hits 9 = (CoverageMap.new 65536).hits 9 :=
  ⟨(C6_hit_edge (CoverageMap.new 65536) 3 5 rfl (by norm_num) (by norm_num)).1,
   (C6_hit_edge (CoverageMap.new 65536) 3 5 rfl (by norm_num) (by norm_num)).2 9 (by decide)⟩

/-! ## Claim C9 -/

lemma hash16_new_65536 :
    (CoverageMap.new (64 * 1024)).hash16 =
      specFnvFold 1469598103934665603 (List.replicate 65536 0) := by
  unfold CoverageMap.hash16 bucketVector CoverageMap.new
  rw [show (64 * 1024 : Nat) = 65536 by norm_num, List.map_const', List.length_range]
  exact foldl_fnvStep _ _

/-- C9: when the instruction data is empty, the VM emits zero events (and
returns the pre-snapshot untouched), the oracle engine raises no signal
(all six stay false), the evaluator returns `is_objective = false`, and
the coverage fingerprint equals the FNV fold over an all-zero
65 536-bucket vector. -/
theorem C9_noop_run (pid : Pubkey) (snap : LedgerSnapshot) (tx : Transaction)
    (fr : Nat → Pubkey) (c : Nat) (ctx : OracleContext) (best : Nat)
    (h : tx.instruction.data = []) :
    (TraceVm.run pid snap tx fr c).events = [] ∧
    (TraceVm.run pid snap tx fr c).post_snapshot = snap ∧
    (let vm := TraceVm.run pid snap tx fr c
     let folded := (Oracles.new ctx snap).processAll tx vm.taint snap vm.post_snapshot
       vm.events OracleSignals.allFalse
     folded.1.finalize tx snap vm.post_snapshot folded.2 = OracleSignals.allFalse) ∧
    (let vm := TraceVm.run pid snap tx fr c
     let folded := (Oracles.new ctx snap).processAll tx vm.taint snap vm.post_snapshot
       vm.events OracleSignals.allFalse
     let signals := folded.1.finalize tx snap vm.post_snapshot folded.2
     (TransactionEvaluator.evaluate
        { coverage := vm.coverage, signals := signals, semantics := ExtractedSemantics.init
          tx := tx, pre_snapshot := snap, post_snapshot := vm.post_snapshot }
        best).1.is_objective = false) ∧
    (TraceVm.run pid snap tx fr c).coverage.hash16 =
      specFnvFold 1469598103934665603 (List.replicate 65536 0) := by
  have hrun : TraceVm.run pid snap tx fr c =
      { coverage := CoverageMap.new (64 * 1024)
        taint := { TaintEngine.init with input_taint := !tx.instruction.data.isEmpty }
        events := []
        post_snapshot := { program_id := snap.program_id, accounts := snap.accounts }
        ctr := c } := by
    unfold TraceVm.run vmFold
    rw [h]
    rfl
  have hpost : ({ program_id := snap.program_id, accounts := snap.accounts } :
      LedgerSnapshot) = snap := rfl
  refine ⟨by rw [hrun], by rw [hrun], ?_, ?_, by rw [hrun]; exact hash16_new_65536⟩
  · show (let vm := TraceVm.run pid snap tx fr c
      let folded := (Oracles.new ctx snap).processAll tx vm.taint snap vm.post_snapshot
        vm.events OracleSignals.allFalse
      folded.1.finalize tx snap vm.post_snapshot folded.2 = OracleSignals.allFalse)
    rw [hrun]
    exact finalize_new_allFalse ctx snap tx
  · show (let vm := TraceVm.run pid snap tx fr c
      let folded := (Oracles.new ctx snap).processAll tx vm.taint snap vm.post_snapshot
        vm.events OracleSignals.allFalse
      let signals := folded.1.finalize tx snap vm.post_snapshot folded.2
      (TransactionEvaluator.evaluate
        { coverage := vm.coverage, signals := signals, semantics := ExtractedSemantics.init
          tx := tx, pre_snapshot := snap, post_snapshot := vm.post_snapshot }
        best).1.is_objective = false)
    rw [hrun]
    show (TransactionEvaluator.evaluate
        { coverage := CoverageMap.new (64 * 1024)
          signals := (Oracles.new ctx snap).finalize tx snap snap OracleSignals.allFalse
          semantics := ExtractedSemantics.init, tx := tx, pre_snapshot := snap
          post_snapshot := snap } best).1.is_objective = false
    rw [finalize_new_allFalse ctx snap tx]
    rfl

/-- Witness for C9: the C3 scenario transaction with empty data. -/
theorem C9_noop_run_witness :
    (TraceVm.run PK pre3 (tx3 []) frK 0).events = [] ∧
    (TraceVm.run PK pre3 (tx3 []) frK 0).post_snapshot = pre3 ∧
    (let vm := TraceVm.run PK pre3 (tx3 []) frK 0
     let folded := (Oracles.new ctx3 pre3).processAll (tx3 []) vm.taint pre3 vm.post_snapshot
       vm.events OracleSignals.allFalse
     folded.1.finalize (tx3 []) pre3 vm.post_snapshot folded.2 = OracleSignals.allFalse) ∧
    (let vm := TraceVm.run PK pre3 (tx3 []) frK 0
     let folded := (Oracles.new ctx3 pre3).processAll (tx3 []) vm.taint pre3 vm.post_snapshot
       vm.events OracleSignals.allFalse
     let signals := folded.1.finalize (tx3 []) pre3 vm.post_snapshot folded.2
     (TransactionEvaluator.evaluate
        { coverage := vm.coverage, signals := signals, semantics := ExtractedSemantics.init
          tx := tx3 [], pre_snapshot := pre3, post_snapshot := vm.post_snapshot }
        0).1.is_objective = false) ∧
    (TraceVm.run PK pre3 (tx3 []) frK 0).coverage.hash16 =
      specFnvFold 1469598103934665603 (List.replicate 65536 0) :=
  C9_noop_run PK pre3 (tx3 []) frK 0 ctx3 0 rfl

/-! ## Claim C10 -/

lemma applyLamports_ne (m : AccountMap) (a : Pubkey) (d : Int) (q : Pubkey) (h : q ≠ a) :
    applyLamports m a d q = m q := by
  unfold applyLamports
  cases m a with
  | none => rfl
  | some acc => simp [mapSet, h]

lemma vmWriteData_events_mono (st1 : VmState) (acct : Pubkey) (b : Nat) (ev : VmEvent)
    (h : ev ∈ st1.events) : ev ∈ (vmWriteData st1 acct b).events := by
  unfold vmWriteData
  rcases hsa : st1.snap acct with _ | a <;> simp [h]

lemma vmWriteData_frame (st1 : VmState) (acct : Pubkey) (b : Nat) (k : Pubkey)
    (m0 : AccountMap) (h : st1.snap k = m0 k) :
    (vmWriteData st1 acct b).snap k = m0 k ∨
      ∃ ev ∈ (vmWriteData st1 acct b).events, writeTarget ev = some k := by
  unfold vmWriteData
  rcases hsa : st1.snap acct with _ | a
  · exact Or.inl h
  · by_cases hk : k = acct
    · subst hk
      exact Or.inr ⟨VmEvent.WriteData k (max (b % 32) 1), by simp, rfl⟩
    · left
      dsimp only
      rw [mapSet_ne _ _ _ _ hk]
      exact h

lemma mem_events_vmStep (pid : Pubkey) (tx : Transaction) (fr : Nat → Pubkey)
    (st : VmState) (i b0 : Nat) (ev : VmEvent) (h : ev ∈ st.events) :
    ev ∈ (vmStep pid tx fr st i b0).events := by
  simp only [vmStep]
  split_ifs <;>
    first
      | (simp_all
         done)
      | exact vmWriteData_events_mono _ _ _ ev h

lemma wl_frame (m : AccountMap) (evs : List VmEvent) (acct : Pubkey) (delta : Int)
    (k : Pubkey) (m0 : AccountMap) (h : m k = m0 k) :
    applyLamports m acct delta k = m0 k ∨
      ∃ ev ∈ evs ++ [VmEvent.WriteLamports acct delta], writeTarget ev = some k := by
  by_cases hk : k = acct
  · subst hk
    exact Or.inr ⟨VmEvent.WriteLamports k delta, by simp, rfl⟩
  · left
    rw [applyLamports_ne m acct delta k hk]
    exact h

lemma vmStep_frame (pid : Pubkey) (tx : Transaction) (fr : Nat → Pubkey)
    (st : VmState) (i b0 : Nat) (k : Pubkey) (m0 : AccountMap)
    (h : st.snap k = m0 k ∨ ∃ ev ∈ st.events, writeTarget ev = some k) :
    (vmStep pid tx fr st i b0).snap k = m0 k ∨
      ∃ ev ∈ (vmStep pid tx fr st i b0).events, writeTarget ev = some k := by
  rcases h with hsnap | ⟨ev, hev, hw⟩
  · simp only [vmStep]
    split_ifs <;>
      first
        | exact Or.inl hsnap
        | exact wl_frame st.snap st.events _ _ k m0 hsnap
        | exact vmWriteData_frame _ _ _ k m0 hsnap
  · exact Or.inr ⟨ev, mem_events_vmStep pid tx fr st i b0 ev hev, hw⟩

lemma vmFold_frame (pid : Pubkey) (tx : Transaction) (fr : Nat → Pubkey)
    (k : Pubkey) (m0 : AccountMap) :
    ∀ (l : List (Nat × Nat)) (st : VmState),
    (st.snap k = m0 k ∨ ∃ ev ∈ st.events, writeTarget ev = some k) →
    ((vmFold pid tx fr l st).snap k = m0 k ∨
      ∃ ev ∈ (vmFold pid tx fr l st).events, writeTarget ev = some k) := by
  intro l
  induction l with
  | nil => intro st h; exact h
  | cons p rest ih =>
      intro st h
      exact ih (vmStep pid tx fr st p.1 p.2) (vmStep_frame pid tx fr st p.1 p.2 k m0 h)

/-- C10: for every VM run, every account key that never occurs as the
`acct` of a `WriteLamports` or `WriteData` event has an account record in
the post-snapshot identical to its record in the pre-snapshot (same owner,
lamports, data, and flags — the whole `Account` value). -/
theorem C10_unwritten_keys_unchanged (pid : Pubkey) (snap : LedgerSnapshot)
    (tx : Transaction) (fr : Nat → Pubkey) (c : Nat) (k : Pubkey)
    (h : ∀ ev ∈ (TraceVm.run pid snap tx fr c).events, writeTarget ev ≠ some k) :
    (TraceVm.run pid snap tx fr c).post_snapshot.accounts k = snap.accounts k := by
  unfold TraceVm.run at h ⊢
  dsimp only at h ⊢
  refine ((vmFold_frame pid tx fr k snap.accounts _ _ (Or.inl rfl)).resolve_right ?_)
  rintro ⟨ev, hev, hw⟩
  exact h ev hev hw

/-- Witness for C10: a run with a single `Cmp` event (data `[0x00]`), so
the user wallet is never written and keeps its pre-snapshot record. -/
theorem C10_unwritten_keys_unchanged_witness :
    (∀ ev ∈ (TraceVm.run PK pre3 (tx3 [0]) frK 0).events, writeTarget ev ≠ some UK) ∧
    (TraceVm.run PK pre3 (tx3 [0]) frK 0).post_snapshot.accounts UK = pre3.accounts UK :=
  ⟨by decide, C10_unwritten_keys_unchanged PK pre3 (tx3 [0]) frK 0 UK (by decide)⟩

/-! ## Claim C7 -/

lemma process_event_ib (o : Oracles) (tx : Transaction) (taint : TaintEngine)
    (pre post : LedgerSnapshot) (ev : VmEvent) (s : OracleSignals) :
    (o.process_event tx taint pre post ev s).2.ib = s.ib := by
  cases ev <;> simp only [Oracles.process_event] <;> split_ifs <;> rfl

lemma process_event_sato (o : Oracles) (tx : Transaction) (taint : TaintEngine)
    (pre post : LedgerSnapshot) (ev : VmEvent) (s : OracleSignals)
    (h : (o.process_event tx taint pre post ev s).1.saw_tainted_overflow = true) :
    o.saw_tainted_overflow = true ∨ ev = VmEvent.IntegerOp true true := by
  cases ev with
  | IntegerOp t ov =>
      by_cases hto : (t && ov) = true
      · rcases Bool.and_eq_true t ov |>.mp hto with ⟨rfl, rfl⟩
        exact Or.inr rfl
      · left
        simpa [Oracles.process_event, hto] using h
  | Cmp lhs rhs auth =>
      left
      simp only [Oracles.process_event] at h
      split_ifs at h <;> simp_all
  | ReadAccountData acct owner =>
      left
      simp only [Oracles.process_event] at h
      split_ifs at h <;> simp_all
  | WriteLamports acct delta =>
      left
      simpa [Oracles.process_event] using h
  | WriteData acct nbytes =>
      left
      simpa [Oracles.process_event] using h
  | Cpi invoked provided =>
      left
      simp only [Oracles.process_event] at h
      split_ifs at h <;> simp_all
  | KeyAccess rk pk auth =>
      left
      simp only [Oracles.process_event] at h
      split_ifs at h <;> simp_all

lemma processAll_ib (tx : Transaction) (taint : TaintEngine) (pre post : LedgerSnapshot) :
    ∀ (events : List VmEvent) (o : Oracles) (s : OracleSignals),
    (Oracles.processAll o tx taint pre post events s).2.ib = s.ib := by
  intro events
  induction events with
  | nil => intro o s; rfl
  | cons ev rest ih =>
      intro o s
      have step := process_event_ib o tx taint pre post ev s
      have tailEq := ih (o.process_event tx taint pre post ev s).1
        (o.process_event tx taint pre post ev s).2
      calc (Oracles.processAll o tx taint pre post (ev :: rest) s).2.ib
          = (Oracles.processAll (o.process_event tx taint pre post ev s).1 tx taint pre post
              rest (o.process_event tx taint pre post ev s).2).2.ib := rfl
        _ = (o.process_event tx taint pre post ev s).2.ib := tailEq
        _ = s.ib := step

lemma processAll_sato (tx : Transaction) (taint : TaintEngine) (pre post : LedgerSnapshot) :
    ∀ (events : List VmEvent) (o : Oracles) (s : OracleSignals),
    (Oracles.processAll o tx taint pre post events s).1.saw_tainted_overflow = true →
    o.saw_tainted_overflow = true ∨ VmEvent.IntegerOp true true ∈ events := by
  intro events
  induction events with
  | nil => intro o s h; exact Or.inl h
  | cons ev rest ih =>
      intro o s h
      have h' : (Oracles.processAll (o.process_event tx taint pre post ev s).1 tx taint pre post
          rest (o.process_event tx taint pre post ev s).2).1.saw_tainted_overflow = true := h
      rcases ih _ _ h' with h0 | hmem
      · rcases process_event_sato o tx taint pre post ev s h0 with h1 | h1
        · exact Or.inl h1
        · exact Or.inr (h1 ▸ List.mem_cons_self ev rest)
      · exact Or.inr (List.mem_cons_of_mem ev hmem)

lemma finalize_ib_source (o : Oracles) (tx : Transaction) (pre post : LedgerSnapshot)
    (s : OracleSignals) (h : (o.finalize tx pre post s).ib = true) :
    o.saw_tainted_overflow = true ∨ s.ib = true := by
  by_cases hst : o.saw_tainted_overflow = true
  · exact Or.inl hst
  · right
    unfold Oracles.finalize at h
    simp only [Bool.not_eq_true] at hst
    rw [hst] at h
    simp only [Bool.false_eq_true, if_false] at h
    split_ifs at h <;> exact h

/-- C7: starting from all-false signals, after the oracle engine folds any
event stream produced by the VM and runs finalize, `signals.ib = true`
implies the event stream contained at least one `IntegerOp` event with
`tainted = true` and `overflowed = true`. (Proved for arbitrary event
streams, which subsumes the VM-produced ones.) -/
theorem C7_ib_needs_tainted_overflow (events : List VmEvent) (tx : Transaction)
    (taint : TaintEngine) (pre post : LedgerSnapshot) (ctx : OracleContext)
    (h : (let folded := (Oracles.new ctx pre).processAll tx taint pre post events
            OracleSignals.allFalse
          (folded.1.finalize tx pre post folded.2).ib) = true) :
    VmEvent.IntegerOp true true ∈ events := by
  simp only at h
  rcases finalize_ib_source _ _ _ _ _ h with hst | hib
  · rcases processAll_sato tx taint pre post events _ _ hst with h0 | hmem
    · exact absurd h0 (by simp [Oracles.new])
    · exact hmem
  · rw [processAll_ib] at hib
    exact absurd hib (by simp [OracleSignals.allFalse])

/-- Witness for C7: a one-event stream whose fold and finalize raise IB
(attacker gained 60 000 000 > 50 000 000 over a zero baseline). -/
theorem C7_ib_needs_tainted_overflow_witness :
    (let folded := (Oracles.new ctx3 preW).processAll (tx3 []) TaintEngine.init preW postW
        [VmEvent.IntegerOp true true] OracleSignals.allFalse
     (folded.1.finalize (tx3 []) preW postW folded.2).ib) = true ∧
    VmEvent.IntegerOp true true ∈ [VmEvent.IntegerOp true true] :=
  ⟨by decide,
   C7_ib_needs_tainted_overflow [VmEvent.IntegerOp true true] (tx3 []) TaintEngine.init
     preW postW ctx3 (by decide)⟩

/-! ## Claim C8 -/

lemma mem_dedupConsec : ∀ (l : List Nat) (x : Nat), x ∈ dedupConsec l → x ∈ l
  | [], x, h => by simp [dedupConsec] at h
  | [a], x, h => by simpa [dedupConsec] using h
  | a :: b :: rest, x, h => by
      by_cases hab : a = b
      · have hx := mem_dedupConsec (b :: rest) x (by simpa [dedupConsec, hab] using h)
        exact List.mem_cons_of_mem a hx
      · have h' : x = a ∨ x ∈ dedupConsec (b :: rest) := by
          simpa [dedupConsec, hab] using h
        rcases h' with rfl | h'
        · exact List.mem_cons_self x (b :: rest)
        · exact List.mem_cons_of_mem a (mem_dedupConsec (b :: rest) x h')

lemma dedupConsec_sorted_lt : ∀ (l : List Nat), l.Sorted (· ≤ ·) →
    (dedupConsec l).Sorted (· < ·)
  | [], _ => by simp [dedupConsec]
  | [a], _ => by simp [dedupConsec]
  | a :: b :: rest, h => by
      have hparts := List.sorted_cons.mp h
      have hab' : a ≤ b := hparts.1 b (List.mem_cons_self b rest)
      have htail : (b :: rest).Sorted (· ≤ ·) := hparts.2
      have ih := dedupConsec_sorted_lt (b :: rest) htail
      by_cases hab : a = b
      · simpa [dedupConsec, hab] using ih
      · have hlt : a < b := lt_of_le_of_ne hab' hab
        rw [show dedupConsec (a :: b :: rest) = a :: dedupConsec (b :: rest) by
          simp [dedupConsec, hab]]
        refine List.sorted_cons.mpr ⟨fun x hx => ?_, ih⟩
        rcases List.mem_cons.mp (mem_dedupConsec (b :: rest) x hx) with rfl | hxr
        · exact hlt
        · exact lt_of_lt_of_le hlt ((List.sorted_cons.mp htail).1 x hxr)

lemma sortDedup_sorted (l : List Nat) :
    (dedupConsec (List.insertionSort (· ≤ ·) l)).Sorted (· ≤ ·) :=
  (dedupConsec_sorted_lt _ (List.sorted_insertionSort (· ≤ ·) l)).imp le_of_lt

lemma sortDedup_nodup (l : List Nat) :
    (dedupConsec (List.insertionSort (· ≤ ·) l)).Nodup :=
  (dedupConsec_sorted_lt _ (List.sorted_insertionSort (· ≤ ·) l)).nodup

/-- C8: for every input byte buffer, emulator, and program id, the
transaction returned by `from_bytes` has an `all_accounts_sorted` list
that is sorted in key order and contains no duplicate keys. -/
theorem C8_accounts_sorted_nodup (bytes : List Nat) (emu : BlockchainEmulator)
    (pid : Pubkey) (tx : Transaction)
    (h : TxGenerator.from_bytes bytes emu pid = some tx) :
    tx.all_accounts_sorted.Sorted (· ≤ ·) ∧ tx.all_accounts_sorted.Nodup := by
  unfold TxGenerator.from_bytes at h
  split_ifs at h
  injection h with h
  subst h
  exact ⟨sortDedup_sorted _, sortDedup_nodup _⟩

/-- Witness for C8: the defaulted empty input buffer against `emuW`. -/
theorem C8_accounts_sorted_nodup_witness :
    TxGenerator.from_bytes [] emuW 7 = some txW ∧
    (txW.all_accounts_sorted.Sorted (· ≤ ·) ∧ txW.all_accounts_sorted.Nodup) :=
  ⟨by decide, C8_accounts_sorted_nodup [] emuW 7 txW (by decide)⟩

/-! ## Claim C2 -/

lemma poolFold_not_mem (emu : BlockchainEmulator) (pid : Pubkey) (fr : Nat → Pubkey)
    (k : Pubkey) : ∀ (l : List Pubkey) (p : AccountMap × Nat), k ∉ l →
    (l.foldl (poolStep emu pid fr) p).1 k = p.1 k := by
  intro l
  induction l with
  | nil => intro p _; rfl
  | cons a rest ih =>
      intro p h
      have hka : k ≠ a := fun he => h (he ▸ List.mem_cons_self a rest)
      have hrest : k ∉ rest := fun hm => h (List.mem_cons_of_mem a hm)
      have step : (poolStep emu pid fr p a).1 k = p.1 k := by
        unfold poolStep
        split_ifs <;> first | rfl | exact mapSet_ne _ _ _ _ hka
      calc (List.foldl (poolStep emu pid fr) p (a :: rest)).1 k
          = (List.foldl (poolStep emu pid fr) (poolStep emu pid fr p a) rest).1 k := rfl
        _ = (poolStep emu pid fr p a).1 k := ih (poolStep emu pid fr p a) hrest
        _ = p.1 k := step

lemma poolFold_mem (emu : BlockchainEmulator) (pid : Pubkey) (fr : Nat → Pubkey)
    (k : Pubkey) (hka : k ≠ emu.attacker) (hku : k ≠ emu.user) (hkp : k ≠ pid) :
    ∀ (l : List Pubkey) (p : AccountMap × Nat), k ∈ l →
    ∃ m, (l.foldl (poolStep emu pid fr) p).1 k =
      some (poolAccount emu (if attackerControlled k then fr m else pid)) := by
  intro l
  induction l with
  | nil => intro p h; cases h
  | cons a rest ih =>
      intro p h
      by_cases hkr : k ∈ rest
      · exact ih (poolStep emu pid fr p a) hkr
      · have hak : a = k := by
          rcases List.mem_cons.mp h with h1 | h1
          · exact h1.symm
          · exact absurd h1 hkr
        subst hak
        have hstep : ∃ m, (poolStep emu pid fr p a).1 a =
            some (poolAccount emu (if attackerControlled a then fr m else pid)) := by
          unfold poolStep
          rw [if_neg (by simp [hka, hku, hkp])]
          by_cases hc : attackerControlled a
          · exact ⟨p.2, by simp [hc, mapSet_self]⟩
          · exact ⟨0, by simp [hc, mapSet_self]⟩
        rcases hstep with ⟨m, hm⟩
        refine ⟨m, ?_⟩
        rw [List.foldl_cons, poolFold_not_mem emu pid fr a rest (poolStep emu pid fr p a) hkr,
          hm]

lemma build_snapshot_owner (emu : BlockchainEmulator) (pid : Pubkey) (elf : List Nat)
    (fr : Nat → Pubkey) (c : Nat) (k : Pubkey)
    (hk : k ∈ emu.selectable_accounts) (hka : k ≠ emu.attacker) (hku : k ≠ emu.user)
    (hkp : k ≠ pid) :
    ∃ m, snapshotOwner (emu.build_snapshot pid elf fr c).1 k =
      some (if attackerControlled k then fr m else pid) := by
  obtain ⟨m, hm⟩ := poolFold_mem emu pid fr k hka hku hkp emu.selectable_accounts
    (mapSet (mapSet (mapSet (fun _ => none) emu.attacker
        { owner := system_program_id, lamports := 1000000000, data := []
          is_signer := true, is_writable := true, is_executable := false }) emu.user
        { owner := system_program_id, lamports := 1000000000, data := []
          is_signer := true, is_writable := true, is_executable := false }) pid
        { owner := system_program_id, lamports := 1, data := elf
          is_signer := false, is_writable := false, is_executable := true }, c) hk
  refine ⟨m, ?_⟩
  unfold BlockchainEmulator.build_snapshot snapshotOwner
  dsimp only
  rw [hm]
  rfl

lemma mem_malicious_pool (emu : BlockchainEmulator) (k : Pubkey)
    (hk : k ∈ emu.selectable_accounts) (hka : k ≠ emu.attacker) (hku : k ≠ emu.user)
    (hodd : ∃ j ∈ nonIdentitySelectables emu, attackerControlled j = true) :
    k ∈ (TxGenerator.pools emu).2 ↔ attackerControlled k = true := by
  have hbase : k ∈ nonIdentitySelectables emu := by
    unfold nonIdentitySelectables
    refine List.mem_filter.mpr ⟨hk, ?_⟩
    simp [hka, hku]
  obtain ⟨j, hj, hjodd⟩ := hodd
  have hjmem : j ∈ (nonIdentitySelectables emu).filter (fun q => attackerControlled q) :=
    List.mem_filter.mpr ⟨hj, hjodd⟩
  have hmal : ¬ ((nonIdentitySelectables emu).filter
      (fun q => attackerControlled q)).isEmpty = true := by
    intro he
    rw [List.isEmpty_iff] at he
    rw [he] at hjmem
    cases hjmem
  unfold TxGenerator.pools
  dsimp only
  rw [if_neg hmal]
  constructor
  · intro hmem
    exact (List.mem_filter.mp hmem).2
  · intro hac
    exact List.mem_filter.mpr ⟨hbase, hac⟩

/-- C2 counterexample: in `emuX` every non-identity selectable key has an
even first byte, so the generator's malicious pool falls back to the
benign pool and contains the even key `E1`, while `build_snapshot` gives
`E1` the owner `program_id` itself: the claimed equivalence fails. -/
theorem C2_counterexample :
    ¬ (E1 ∈ (TxGenerator.pools emuX).2 ↔
        snapshotOwner (emuX.build_snapshot PK [] frK 0).1 E1 ≠ some PK) := by
  decide

/-- C2 (amended): for every key `k` in the emulator's selectable pool
other than attacker, user and the program key, provided the pool contains
at least one odd-first-byte non-identity key (so the generator's
malicious-pool fallback does not fire) and the freshly minted owner keys
differ from `program_id` (as `new_unique` guarantees), the generator
places `k` in its malicious pool iff `build_snapshot` assigns `k` an owner
different from `program_id`, and both decide by the parity rule
`k.bytes[0] & 1 == 1`. -/
theorem C2_parity_agreement (emu : BlockchainEmulator) (pid : Pubkey) (elf : List Nat)
    (fr : Nat → Pubkey) (c : Nat) (k : Pubkey)
    (hk : k ∈ emu.selectable_accounts) (hka : k ≠ emu.attacker) (hku : k ≠ emu.user)
    (hkp : k ≠ pid)
    (hodd : ∃ j ∈ nonIdentitySelectables emu, attackerControlled j = true)
    (hfr : ∀ n, fr n ≠ pid) :
    (k ∈ (TxGenerator.pools emu).2 ↔ attackerControlled k = true) ∧
    (k ∈ (TxGenerator.pools emu).2 ↔
      snapshotOwner (emu.build_snapshot pid elf fr c).1 k ≠ some pid) ∧
    (attackerControlled k = true ↔ firstByte k % 2 = 1) := by
  have hpool := mem_malicious_pool emu k hk hka hku hodd
  obtain ⟨m, hm⟩ := build_snapshot_owner emu pid elf fr c k hk hka hku hkp
  refine ⟨hpool, ?_, by simp [attackerControlled]⟩
  rw [hpool]
  by_cases hc : attackerControlled k = true
  · rw [hc] at hm
    simp only [if_true] at hm
    rw [hm]
    simp [hc, hfr m]
  · simp only [Bool.not_eq_true] at hc
    rw [hc] at hm
    simp only [Bool.false_eq_true, if_false] at hm
    rw [hm]
    simp [hc]

lemma frK_ne_PK : ∀ n, frK n ≠ PK := by
  intro n
  show (1001 : Nat) ≠ PK
  decide

/-! ## Claim C3 -/

/-- C3 counterexample: on instruction data `[0xFF, 0x21]` the second byte
decodes to opcode 1 (`0x21 >> 5 = 1`, READ ACCOUNT DATA), not to an
attacker-style lamport write, so no lamports move and the IB signal stays
false — the claim's scenario does not raise IB. (The first byte does latch
`pending_big_attacker_gain` as claimed; the latch is simply never
consumed.) -/
theorem C3_counterexample :
    (scenarioVm [0xFF, 0x21]).events =
      [VmEvent.IntegerOp true true, VmEvent.KeyAccess AK [AK] true,
       VmEvent.ReadAccountData E1 PK] ∧
    (scenarioSignals [0xFF, 0x21]).ib = false :=
  ⟨by decide, by decide⟩

/-- C3 (amended): running the VM on instruction data `[0xFF, 0x41]`
(`0x41 >> 5 = 2`, mode 1: the attacker-style lamport write the claim
intended, where `0x21` decodes to a read) latches
`pending_big_attacker_gain` on the first byte and, on the second byte,
performs an attacker-style lamport write that grants 80 000 000 to the
first signer account — here the attacker — so at finalize the attacker's
post-lamports (1 080 000 000) exceed the pre-attacker baseline
(1 000 000 000) plus 50 000 000 and the IB signal is raised. -/
theorem C3_ib_scenario :
    (scenarioVm [0xFF, 0x41]).events =
      [VmEvent.IntegerOp true true, VmEvent.KeyAccess AK [AK] true,
       VmEvent.WriteLamports AK 80000000] ∧
    lamportsOf (scenarioVm [0xFF, 0x41]).post_snapshot.accounts AK 0 = 1080000000 ∧
    scenarioSignals [0xFF, 0x41] = { OracleSignals.allFalse with ib := true } :=
  ⟨by decide, by decide, by decide⟩

/-! ## Claim C1 -/

/-- C1 counterexample: two executions of the same fuzz-loop iteration with
identical seed (the fixed `theSeed`), iteration index 0, program id `PK`,
emulator identities `emuC`, hints, and program bytes — but with the
distinct `Pubkey::new_unique()` draws two real executions of the process
produce — give different post-snapshots: the odd-parity pool account `O1`
receives a freshly minted owner, which differs between the runs. -/
theorem C1_counterexample :
    (runOneIteration cfg1C 0 st0C).map (fun r => r.post.accounts O1) ≠
      (runOneIteration cfg2C 0 st0C).map (fun r => r.post.accounts O1) := by
  decide

/-- C1 (amended): two executions of a single fuzz-loop iteration with
identical seed, iter, program id, emulator identities and hints, program
bytes, AND identical `Pubkey::new_unique()` draws and counter produce
equal post-snapshots, equal event streams, equal coverage fingerprints and
equal oracle signals; the filesystem-write bookkeeping (`wctr`) and the
`executions` counter are irrelevant to the iteration. -/
theorem C1_deterministic_iteration (pid : Pubkey) (elf : List Nat) (fr : Nat → Pubkey)
    (i : Nat) (emu : BlockchainEmulator) (best c w e w' e' : Nat) :
    (runOneIteration { program_id := pid, elf_bytes := elf, fresh := fr } i
        { emu := emu, best_cov_hash := best, ctr := c, wctr := w, executions := e }).map
      (fun r => (r.post.accounts, r.events, r.coverage.hash16, r.signals)) =
    (runOneIteration { program_id := pid, elf_bytes := elf, fresh := fr } i
        { emu := emu, best_cov_hash := best, ctr := c, wctr := w', executions := e' }).map
      (fun r => (r.post.accounts, r.events, r.coverage.hash16, r.signals)) := rfl

/-! ## Claim C4 -/

/-- C4 (amended): a filesystem write error while persisting an objective's
artifacts aborts the fuzz loop — the `?` operator propagates the error out
of `run_fuzzdelsol` (spec §7's error path), so the loop does not continue
to the next iteration; the error reports the number of completed
iterations. -/
theorem C4_write_error_aborts (cfg : FuzzConfig) (fsw : Nat → Bool) (i fuel : Nat)
    (st : LoopState) (h1 : iterObjective cfg i st = true) (h2 : fsw st.wctr = false) :
    fuzzLoop cfg fsw i (fuel + 1) st = some (Except.error st.executions) := by
  unfold iterObjective at h1
  simp only [fuzzLoop]
  cases hr : runOneIteration cfg i st with
  | none => rw [hr] at h1; cases h1
  | some r =>
      rw [hr] at h1
      have h1' : r.outcome.is_objective = true := h1
      simp [hr, h1', h2]

/-- Witness for C4 (amended): iteration 0 with `emuC` raises MKC (an
objective) and the all-failing write oracle aborts the two-iteration-fuel
loop at once. -/
theorem C4_write_error_aborts_witness :
    iterObjective cfg1C 0 st0C = true ∧
    (fun _ => false : Nat → Bool) st0C.wctr = false ∧
    fuzzLoop cfg1C (fun _ => false) 0 1 st0C = some (Except.error 0) :=
  ⟨by decide, rfl,
   C4_write_error_aborts cfg1C (fun _ => false) 0 0 st0C (by decide) rfl⟩

/-- C4 counterexample: with every filesystem write failing, a 1-iteration
run whose iteration is an objective returns `Except.error` after 0
completed iterations, while the identical run with succeeding writes
completes (`Except.ok 1`): the write error, not anything else, aborted the
loop. -/
theorem C4_counterexample :
    run_fuzzdelsol cfg1C (fun _ => false) 1 emuC = some (Except.error 0) ∧
    run_fuzzdelsol cfg1C (fun _ => true) 1 emuC = some (Except.ok 1) :=
  ⟨rfl, rfl⟩

/-- Witness for C2 at the odd pool key `O1` of `emuC`. -/
theorem C2_parity_agreement_witness :
    (O1 ∈ (TxGenerator.pools emuC).2 ↔ attackerControlled O1 = true) ∧
    (O1 ∈ (TxGenerator.pools emuC).2 ↔
      snapshotOwner (emuC.build_snapshot PK [] frK 0).1 O1 ≠ some PK) ∧
    (attackerControlled O1 = true ↔ firstByte O1 % 2 = 1) :=
  C2_parity_agreement emuC PK [] frK 0 O1 (by decide) (by decide) (by decide) (by decide)
    (by decide) frK_ne_PK

end FuzzDelSol
